import Mathlib

/-!
Verification of the donut object-storage driver (`pkg/storage/donut/objectstorage.go`)
and of the S3 API handlers of the same repository.

Modelling conventions:
* Go strings are modelled as `List Char` (`Str`).  Go compares strings byte-wise;
  for valid UTF-8 strings byte order coincides with code-point order, so the
  character-level lexicographic order models Go's `<` / `>` on strings.
* Go maps are modelled as association lists with Go's update semantics
  (`insertA` overwrites, `lookupA` returns `Option`).  A lookup of an absent key
  in a Go map of map type yields the `nil` map; `lookupA` returning `none`
  models that `nil` value, and assigning into it is a Go runtime panic,
  modelled by `GoOutcome.panic`.
* Fallible Go functions become `GoOutcome`, with `.ok`, `.err` (a returned
  `error` value) and `.panic` (a Go runtime panic).
-/

set_option autoImplicit false

/-- Go strings, modelled as lists of characters. -/
abbrev Str := List Char

/-- Embed a Lean string literal as a `Str`. -/
def str (s : String) : Str := s.data

/-- The character class trimmed by Go's `strings.TrimSpace` (`unicode.IsSpace`
for the Latin-1 range: space, tab, newline, vertical tab, form feed, carriage
return, NEL, NBSP). -/
def goIsSpace (c : Char) : Bool :=
  c == ' ' || c == '\t' || c == '\n' || c == Char.ofNat 11 || c == Char.ofNat 12 ||
  c == '\r' || c == Char.ofNat 133 || c == Char.ofNat 160

/-- The test `s == "" || strings.TrimSpace(s) == ""` used throughout the driver:
it holds exactly when every character of `s` is whitespace (the empty string
included). -/
def isWhitespaceOnly (s : Str) : Bool :=
  s.all goIsSpace

/-- Boolean string-prefix test, modelling Go's `strings.HasPrefix`. -/
def isPfxOf : Str → Str → Bool
  | [], _ => true
  | _ :: _, [] => false
  | a :: as, b :: bs => a == b && isPfxOf as bs

/-- Go's byte-order comparison `a < b` on strings (character-level lexicographic
order, which agrees with byte order on valid UTF-8). -/
def strLtB : Str → Str → Bool
  | [], [] => false
  | [], _ :: _ => true
  | _ :: _, [] => false
  | a :: as, b :: bs => if a < b then true else if b < a then false else strLtB as bs

/-- Go's `strings.Contains s d`: `d` occurs as a contiguous substring of `s`. -/
def goContains : Str → Str → Bool
  | [], d => isPfxOf d []
  | c :: cs, d => isPfxOf d (c :: cs) || goContains cs d

/-- Go's `strings.TrimPrefix p` applied to one string. -/
def goTrimPfx (p s : Str) : Str :=
  if isPfxOf p s = true then s.drop p.length else s

/-- The substring of `n` up to and including the first occurrence of the
delimiter `d` (total: names not containing `d` are returned unchanged). -/
def dirOf (d : Str) : Str → Str
  | [] => []
  | c :: cs => if isPfxOf d (c :: cs) = true then d else c :: dirOf d cs

/-- Association-list lookup, modelling Go map indexing (`none` is Go's zero
value for the map's value type). -/
def lookupA {β : Type} : List (Str × β) → Str → Option β
  | [], _ => none
  | (k, v) :: rest, key => if k = key then some v else lookupA rest key

/-- Go map indexing for value types whose zero value is meaningful: the stored
value, or the supplied zero value when the key is absent. -/
def lookupD {β : Type} (l : List (Str × β)) (key : Str) (dflt : β) : β :=
  (lookupA l key).getD dflt

/-- Association-list update, modelling Go map assignment (overwrite or append). -/
def insertA {β : Type} : List (Str × β) → Str → β → List (Str × β)
  | [], key, v => [(key, v)]
  | (k, w) :: rest, key, v =>
    if k = key then (key, v) :: rest else (k, w) :: insertA rest key v

/-- Modelled from the spec: `uniqueAppend(list, s)` of §4.A (the string-list
utility source file is not under `src/`): append `s` unless already present,
preserving first-seen order. -/
def appendUniq (l : List Str) (s : Str) : List Str :=
  if s ∈ l then l else l ++ [s]

/-- Modelled from the spec: `uniqueList` of §4.A — set semantics preserving
first-seen order. -/
def uniqueObjects (l : List Str) : List Str :=
  l.foldl (fun acc s => appendUniq acc s) []

/-- Modelled from the spec: `filterPrefix(list, p)` of §4.A — the names that
start with `p` (exact byte-prefix). -/
def filterPrefix (l : List Str) (p : Str) : List Str :=
  l.filter (fun s => isPfxOf p s)

/-- Modelled from the spec: `removePrefix(list, p)` of §4.A — the names with
the leading `p` stripped. -/
def removePrefix (l : List Str) (p : Str) : List Str :=
  l.map (goTrimPfx p)

/-- Modelled from the spec: `filterDelimited(list, d)` of §4.A — the names that
do not contain `d`. -/
def filterDelimited (l : List Str) (d : Str) : List Str :=
  l.filter (fun s => goContains s d = false)

/-- Modelled from the spec: `filterNotDelimited(list, d)` of §4.A — the names
that do contain `d`. -/
def filterNotDelimited (l : List Str) (d : Str) : List Str :=
  l.filter (fun s => goContains s d)

/-- Modelled from the spec: `extractDir(list, d)` of §4.A — for each name, the
substring up to and including the first occurrence of `d`. -/
def extractDir (l : List Str) (d : Str) : List Str :=
  l.map (fun n => dirOf d n)

/-- Insert a string into a (sorted) list, keeping byte order — one step of the
insertion sort used to model Go's `sort.Strings`. -/
def insSorted (s : Str) : List Str → List Str
  | [] => [s]
  | t :: ts => if strLtB t s = true then t :: insSorted s ts else s :: t :: ts

/-- Model of Go's `sort.Strings` (ascending byte order).  The claims proved
below depend only on membership and length, which any sort preserves. -/
def sortStrings : List Str → List Str
  | [] => []
  | s :: ss => insSorted s (sortStrings ss)

/-- The error kinds of the donut driver that the embedded operations produce
(`pkg/storage/donut`-level taxonomy). -/
inductive DonutError : Type where
  | invalidArgument : DonutError
  | bucketNotFound : Str → DonutError
  | objectNotFound : Str → DonutError
  | objectExists : Str → DonutError
  | badDigest : DonutError
  | metadataReadError : DonutError
deriving DecidableEq

/-- Outcome of a Go function call: a value, a returned error, or a runtime
panic. -/
inductive GoOutcome (α : Type) : Type where
  | ok : α → GoOutcome α
  | err : DonutError → GoOutcome α
  | panic : GoOutcome α
deriving DecidableEq

/-- The donut driver state.
`buckets` is the bucket index (bucket name to list of object names) that
`getDonutBuckets` materialises; per the spec that step is not itself an error
source in the logical model (`ListBuckets` "never fails", §4.C).
`metadata` is the persistent bucket-metadata table read by
`getDonutBucketMetadata`; `none` models the never-initialized store, on which
that read fails. -/
structure Donut : Type where
  buckets : List (Str × List Str)
  metadata : Option (List (Str × List (Str × Str)))
deriving DecidableEq

/-- The metadata key `"acl"`. -/
def aclKey : Str := str "acl"

namespace donut

/-- `donut.GetBucketMetadata` from `objectstorage.go`. -/
def GetBucketMetadata (d : Donut) (bucket : Str) : GoOutcome (List (Str × Str)) :=
  match lookupA d.buckets bucket with
  | none => GoOutcome.err (DonutError.bucketNotFound bucket)
  | some _ =>
    match d.metadata with
    | none => GoOutcome.err DonutError.metadataReadError
    | some metadata => GoOutcome.ok (lookupD metadata bucket [])

/-- `donut.SetBucketMetadata` from `objectstorage.go`.  The source reads the
whole metadata table, takes `metadata[bucket]` (the `nil` map when the bucket
is absent, modelled by the `none` branch), assigns the input's `"acl"` value
into it — a Go runtime panic when that map is `nil` — writes the entry back and
persists the table.  There is no bucket-existence check. -/
def SetBucketMetadata (d : Donut) (bucket : Str) (bucketMetadata : List (Str × Str)) :
    GoOutcome Donut :=
  match d.metadata with
  | none => GoOutcome.err DonutError.metadataReadError
  | some metadata =>
    match lookupA metadata bucket with
    | none => GoOutcome.panic
    | some oldBucketMetadata =>
      GoOutcome.ok (Donut.mk d.buckets
        (some (insertA metadata bucket
          (insertA oldBucketMetadata aclKey (lookupD bucketMetadata aclKey [])))))

/-- `donut.ListBuckets` from `objectstorage.go`: a failed metadata read is
swallowed and the fresh `dummyMetadata` (empty map) is returned with a nil
error. -/
def ListBuckets (d : Donut) : GoOutcome (List (Str × List (Str × Str))) :=
  match d.metadata with
  | none => GoOutcome.ok []
  | some metadata => GoOutcome.ok metadata

end donut

/-- The prefix-handling step of `donut.ListObjects`: when the raw query prefix
is non-empty after trimming, keep only names carrying it and strip it
(`filterPrefix` then `removePrefix`, both applied with the untrimmed prefix). -/
def donutObjectsOf (names : List Str) (pfx : Str) : List Str :=
  if isWhitespaceOnly pfx = false then removePrefix (filterPrefix names pfx) pfx
  else names

/-- The delimiter split of `donut.ListObjects`: the candidate keys are the
names free of the delimiter; without a (post-trim) delimiter all names remain
candidates. -/
def actualObjectsOf (dObjs : List Str) (delim : Str) : List Str :=
  if isWhitespaceOnly delim = false then filterDelimited dObjs delim
  else dObjs

/-- The common-prefix extraction of `donut.ListObjects`: from the names that do
contain the delimiter, the directory component up to and including its first
occurrence, deduplicated; empty without a (post-trim) delimiter. -/
def actualPrefixesOf (dObjs : List Str) (delim : Str) : List Str :=
  if isWhitespaceOnly delim = false then
    uniqueObjects (extractDir (filterNotDelimited dObjs delim) delim)
  else []

/-- The marker step of `donut.ListObjects`: with a non-empty (raw) marker, keep
only the names strictly greater than it in byte order. -/
def afterMarker (sorted : List Str) (marker : Str) : List Str :=
  if marker = [] then sorted
  else sorted.filter (fun n => strLtB marker n)

/-- The truncation loop of `donut.ListObjects`: walk the candidates, append
`prefix + name` uniquely until the accumulated results reach `maxkeys`, at
which point the listing is marked truncated. -/
def resultsLoop (pfx : Str) (mk : Nat) (acc : List Str) : List Str → List Str × Bool
  | [] => (acc, false)
  | n :: ns =>
    if mk ≤ acc.length then (acc, true)
    else resultsLoop pfx mk (appendUniq acc (pfx ++ n)) ns

/-- The common-prefix output loop of `donut.ListObjects`: re-prepend the query
prefix to each extracted directory, uniquely. -/
def prependPfxUniq (pfx : Str) (cps : List Str) : List Str :=
  cps.foldl (fun acc cp => appendUniq acc (pfx ++ cp)) []

/-- The `maxkeys` normalisation of `donut.ListObjects`: non-positive values
become 1000. -/
def maxKeysNorm (maxkeys : Int) : Nat :=
  if maxkeys ≤ 0 then 1000 else maxkeys.toNat

/-- The key-producing pipeline of `donut.ListObjects`: prefix handling,
delimiter split, sort, marker filter, then the truncation loop. -/
def listResultsPair (names : List Str) (pfx marker delim : Str) (maxkeys : Int) :
    List Str × Bool :=
  resultsLoop pfx (maxKeysNorm maxkeys) []
    (afterMarker (sortStrings (actualObjectsOf (donutObjectsOf names pfx) delim)) marker)

/-- The pure listing algorithm of `donut.ListObjects` (`objectstorage.go`
lines 106–157), over the bucket's object names in index order: the sorted
result keys, the sorted common prefixes, and the truncation flag. -/
def listObjects (names : List Str) (pfx marker delim : Str) (maxkeys : Int) :
    List Str × List Str × Bool :=
  (sortStrings (listResultsPair names pfx marker delim maxkeys).1,
   sortStrings (prependPfxUniq pfx (actualPrefixesOf (donutObjectsOf names pfx) delim)),
   (listResultsPair names pfx marker delim maxkeys).2)

namespace donut

/-- `donut.ListObjects` from `objectstorage.go`: unknown buckets fail with
`BucketNotFound`; otherwise the pure listing algorithm runs on the bucket's
object names (the bucket-level `ListObjects` that materialises those names is
not under `src/`; per the spec it yields the bucket's object-name set). -/
def ListObjects (d : Donut) (bucket pfx marker delim : Str) (maxkeys : Int) :
    GoOutcome (List Str × List Str × Bool) :=
  match lookupA d.buckets bucket with
  | none => GoOutcome.err (DonutError.bucketNotFound bucket)
  | some objs => GoOutcome.ok (listObjects objs pfx marker delim maxkeys)

end donut

/-- Modelled from the spec: the bucket-level `PutObject` (not under `src/`)
streams the payload computing its MD5, fails `BadDigest` when a non-empty
expected digest differs from the computed one, and on success writes the key
into the bucket's object index (§4.C).  `computedMD5` stands for the digest of
the streamed payload. -/
def bucketPutObject (objs : List Str) (object expectedMD5Sum computedMD5 : Str) :
    GoOutcome (Str × List Str) :=
  if expectedMD5Sum ≠ [] ∧ expectedMD5Sum ≠ computedMD5 then GoOutcome.err DonutError.badDigest
  else GoOutcome.ok (computedMD5, objs ++ [object])

namespace donut

/-- `donut.PutObject` from `objectstorage.go`: rejects empty/whitespace names
with `InvalidArgument`, unknown buckets with `BucketNotFound`, keys already in
the bucket's object list with `ObjectExists`, and otherwise delegates to the
bucket-level put. -/
def PutObject (d : Donut) (bucket object expectedMD5Sum computedMD5 : Str) :
    GoOutcome (Str × Donut) :=
  if isWhitespaceOnly bucket = true then GoOutcome.err DonutError.invalidArgument
  else if isWhitespaceOnly object = true then GoOutcome.err DonutError.invalidArgument
  else
    match lookupA d.buckets bucket with
    | none => GoOutcome.err (DonutError.bucketNotFound bucket)
    | some objs =>
      if object ∈ objs then GoOutcome.err (DonutError.objectExists object)
      else
        match bucketPutObject objs object expectedMD5Sum computedMD5 with
        | GoOutcome.ok pr => GoOutcome.ok (pr.1, Donut.mk (insertA d.buckets bucket pr.2) d.metadata)
        | GoOutcome.err e => GoOutcome.err e
        | GoOutcome.panic => GoOutcome.panic

/-- `donut.GetObject` from `objectstorage.go`: empty/whitespace bucket or
object names fail `InvalidArgument` before the bucket index is consulted;
then `BucketNotFound` / `ObjectNotFound` as appropriate.  The successful
bucket-level read (not under `src/`) is abstracted to `ok`. -/
def GetObject (d : Donut) (bucket object : Str) : GoOutcome Unit :=
  if isWhitespaceOnly bucket = true then GoOutcome.err DonutError.invalidArgument
  else if isWhitespaceOnly object = true then GoOutcome.err DonutError.invalidArgument
  else
    match lookupA d.buckets bucket with
    | none => GoOutcome.err (DonutError.bucketNotFound bucket)
    | some objs =>
      if object ∈ objs then GoOutcome.ok ()
      else GoOutcome.err (DonutError.objectNotFound object)

end donut

/-- One `{PartNumber, ETag}` element of a decoded `CompleteMultipartUpload`
XML body. -/
structure CompletedPart : Type where
  partNumber : Int
  eTag : Str
deriving DecidableEq

/-- Modelled from the spec: `sort.IsSorted(completedParts(parts.Part))` — the
`completedParts` ordering (its `Less` method lives in a source file not under
`src/`) is ascending by `PartNumber` (§4.H); `sort.IsSorted` checks every
adjacent pair. -/
def isSortedByPartNumber : List CompletedPart → Bool
  | [] => true
  | [_] => true
  | a :: b :: rest =>
    !(decide (b.partNumber < a.partNumber)) && isSortedByPartNumber (b :: rest)

/-- The error kinds the driver façade can hand back to the HTTP layer
(`pkg/storage/drivers` taxonomy, as matched in the handlers). -/
inductive DriverError : Type where
  | invalidUploadID : DriverError
  | objectExists : DriverError
  | badDigest : DriverError
  | entityTooLarge : DriverError
  | invalidDigest : DriverError
  | otherDriverError : DriverError
deriving DecidableEq

/-- The responses a handler can write (S3 error codes plus the success
response). -/
inductive ApiMessage : Type where
  | success : ApiMessage
  | errAccessDenied : ApiMessage
  | errInternalError : ApiMessage
  | errInvalidPartOrder : ApiMessage
  | errNoSuchUpload : ApiMessage
  | errInvalidPart : ApiMessage
  | errInvalidDigest : ApiMessage
  | errMissingContentLength : ApiMessage
  | errEntityTooLarge : ApiMessage
  | errInvalidRequest : ApiMessage
  | errMethodNotAllowed : ApiMessage
  | errBadDigest : ApiMessage
deriving DecidableEq

/-- The error-kind to response mapping of `completeMultipartUploadHandler`'s
final switch. -/
def completeDriverResponse : Except DriverError Str → ApiMessage
  | Except.ok _ => ApiMessage.success
  | Except.error DriverError.invalidUploadID => ApiMessage.errNoSuchUpload
  | Except.error _ => ApiMessage.errInternalError

/-- An abstract complete-multipart HTTP request, carrying exactly what the
handler inspects: whether `isValidOp` admits it, the decoded XML body (`none`
models a decoder error), and the outcome the driver façade would produce were
it called. -/
structure CompleteMultipartRequest : Type where
  validOp : Bool
  decodedBody : Option (List CompletedPart)
  driverResult : Except DriverError Str

/-- `minioAPI.completeMultipartUploadHandler` from the api source: the outcome
is the list of responses written, in order, paired with whether
`driver.CompleteMultipartUpload` was invoked. -/
def completeMultipartUploadHandler (req : CompleteMultipartRequest) :
    List ApiMessage × Bool :=
  if req.validOp = false then ([ApiMessage.errAccessDenied], false)
  else
    match req.decodedBody with
    | none => ([ApiMessage.errInternalError], false)
    | some parts =>
      if isSortedByPartNumber parts = false then ([ApiMessage.errInvalidPartOrder], false)
      else ([completeDriverResponse req.driverResult], true)

/-- Parse a non-empty run of decimal digits, the digit part of Go's
`strconv.ParseInt`. -/
def parseDigits (s : Str) : Option Nat :=
  if s = [] then none
  else s.foldl (fun acc c =>
    acc.bind (fun n => if c.isDigit then some (n * 10 + (c.toNat - 48)) else none)) (some 0)

/-- Go's `strconv.ParseInt(s, 10, 64)` and `strconv.Atoi` syntax: an optional
sign followed by at least one digit.  (Go additionally reports a range error
beyond 64 bits, returning a clamped value; the claims below evaluate the
parser only on small inputs, where the two agree.) -/
def goParseInt : Str → Option Int
  | '+' :: rest => (parseDigits rest).map (fun n => (n : Int))
  | '-' :: rest => (parseDigits rest).map (fun n => -(n : Int))
  | s => (parseDigits s).map (fun n => (n : Int))

/-- Go's `strconv.Atoi` (base-10 `ParseInt`). -/
def goAtoi : Str → Option Int := goParseInt

/-- The single-operation object-size cap: 5 GiB. -/
def maxObjectSize : Int := 5368709120

/-- Modelled from the spec: `isMaxObjectSize` (not under `src/`) — the
`Content-Length` string denotes a size above the 5 GiB cap (§4.H, §6). -/
def isMaxObjectSize (s : Str) : Bool :=
  match goParseInt s with
  | some n => decide (maxObjectSize < n)
  | none => false

/-- The error-kind to response mapping of `putObjectPartHandler`'s final
switch. -/
def partDriverResponse : Except DriverError Str → ApiMessage
  | Except.ok _ => ApiMessage.success
  | Except.error DriverError.invalidUploadID => ApiMessage.errNoSuchUpload
  | Except.error DriverError.objectExists => ApiMessage.errMethodNotAllowed
  | Except.error DriverError.badDigest => ApiMessage.errBadDigest
  | Except.error DriverError.entityTooLarge => ApiMessage.errEntityTooLarge
  | Except.error DriverError.invalidDigest => ApiMessage.errInvalidDigest
  | Except.error DriverError.otherDriverError => ApiMessage.errInternalError

/-- An abstract upload-part HTTP request, carrying what the handler inspects:
`isValidOp`, `isValidMD5` of the `Content-MD5` header, the raw
`Content-Length` header value, the raw `partNumber` query parameter, and the
outcome the driver façade produces when called. -/
structure PutPartRequest : Type where
  validOp : Bool
  md5Valid : Bool
  contentLength : Str
  partNumberParam : Str
  driverResult : Except DriverError Str

/-- `minioAPI.putObjectPartHandler` from the api source: the outcome is the
list of responses written, in order, paired with the part number passed to
`driver.CreateObjectPart` (`none` when the driver is never called).  The
`partNumber` parse-failure branch writes `InvalidPart` but does not return, so
control falls through to the driver call with the zero value `0` for the part
number. -/
def putObjectPartHandler (req : PutPartRequest) : List ApiMessage × Option Int :=
  if req.validOp = false then ([ApiMessage.errAccessDenied], none)
  else if req.md5Valid = false then ([ApiMessage.errInvalidDigest], none)
  else if req.contentLength = [] then ([ApiMessage.errMissingContentLength], none)
  else if isMaxObjectSize req.contentLength = true then ([ApiMessage.errEntityTooLarge], none)
  else
    match goParseInt req.contentLength with
    | none => ([ApiMessage.errInvalidRequest], none)
    | some _ =>
      match goAtoi req.partNumberParam with
      | none => ([ApiMessage.errInvalidPart, partDriverResponse req.driverResult], some 0)
      | some partID => ([partDriverResponse req.driverResult], some partID)

/-! Concrete driver states and requests used to instantiate the claims. -/

/-- A store holding the single bucket `"a"`, with initialized metadata. -/
def dC1 : Donut :=
  Donut.mk [(str "a", [])] (some [(str "a", [(aclKey, str "private")])])

/-- A store whose bucket `"x"` holds the single object `"ac"`. -/
def dC2 : Donut := Donut.mk [(str "x", [str "ac"])] none

/-- A store whose bucket `"x"` holds the objects `"k1"` and `"k3"`. -/
def dC2w : Donut := Donut.mk [(str "x", [str "k1", str "k3"])] none

/-- A store whose bucket `"x"` holds four objects, for the pagination
scenario. -/
def dC4 : Donut :=
  Donut.mk [(str "x", [str "k1", str "k2", str "k3", str "k4"])] none

/-- A store whose bucket `"x"` holds `a/1, a/2, b, c/d/e`, the delimiter
scenario of the spec. -/
def dC5 : Donut :=
  Donut.mk [(str "x", [str "a/1", str "a/2", str "b", str "c/d/e"])] none

/-- A store holding the single empty bucket `"x"`. -/
def dC6 : Donut := Donut.mk [(str "x", [])] none

/-- The metadata table of the `dC8` store. -/
def metaC8 : List (Str × List (Str × Str)) :=
  [(str "photos", [(aclKey, str "private"), (str "owner", str "minio")])]

/-- The stored metadata of bucket `"photos"` in `dC8`. -/
def oldC8 : List (Str × Str) :=
  [(aclKey, str "private"), (str "owner", str "minio")]

/-- A `SetBucketMetadata` input carrying an `"acl"` value and an unrelated
key. -/
def bmC8 : List (Str × Str) :=
  [(aclKey, str "public-read"), (str "junk", str "x")]

/-- A store holding the bucket `"photos"` with two metadata keys. -/
def dC8 : Donut := Donut.mk [(str "photos", [])] (some metaC8)

/-- An unsorted complete-multipart request: parts listed `[2, 1]`. -/
def reqC7 : CompleteMultipartRequest :=
  CompleteMultipartRequest.mk true
    (some [CompletedPart.mk 2 (str "e2"), CompletedPart.mk 1 (str "e1")])
    (Except.ok (str "etag"))

/-- An upload-part request whose `partNumber` query parameter is not an
integer. -/
def reqC9 : PutPartRequest :=
  PutPartRequest.mk true true (str "5") (str "abc") (Except.ok (str "md5"))

/-! Supporting lemmas about the association-list and string-list utilities. -/

theorem lookupA_insertA_self {β : Type} (l : List (Str × β)) (k : Str) (v : β) :
    lookupA (insertA l k v) k = some v := by
  induction l with
  | nil => simp [insertA, lookupA]
  | cons hd tl ih =>
    obtain ⟨k1, v1⟩ := hd
    by_cases h : k1 = k
    · simp [insertA, h, lookupA]
    · simp [insertA, h, lookupA, ih]

theorem lookupA_insertA_ne {β : Type} (l : List (Str × β)) (k k2 : Str) (v : β)
    (h : k2 ≠ k) : lookupA (insertA l k v) k2 = lookupA l k2 := by
  induction l with
  | nil => simp [insertA, lookupA, Ne.symm h]
  | cons hd tl ih =>
    obtain ⟨k1, v1⟩ := hd
    by_cases hk : k1 = k
    · subst hk
      simp [insertA, lookupA, Ne.symm h]
    · by_cases hk2 : k1 = k2
      · simp [insertA, hk, lookupA, hk2, h]
      · simp [insertA, hk, lookupA, hk2, ih]

theorem mem_appendUniq {l : List Str} {s x : Str} (h : x ∈ appendUniq l s) :
    x ∈ l ∨ x = s := by
  unfold appendUniq at h
  by_cases hs : s ∈ l
  · simp [hs] at h
    exact Or.inl h
  · simp [hs] at h
    exact h

theorem length_appendUniq_le (l : List Str) (s : Str) :
    (appendUniq l s).length ≤ l.length + 1 := by
  unfold appendUniq
  by_cases hs : s ∈ l
  · simp [hs]
  · simp [hs]

theorem mem_insSorted {s x : Str} : ∀ {l : List Str}, x ∈ insSorted s l ↔ x = s ∨ x ∈ l := by
  intro l
  induction l with
  | nil => simp [insSorted]
  | cons t ts ih =>
    unfold insSorted
    by_cases h : strLtB t s = true
    · simp [h, ih]
      tauto
    · simp [h]

theorem mem_sortStrings {x : Str} : ∀ {l : List Str}, x ∈ sortStrings l ↔ x ∈ l := by
  intro l
  induction l with
  | nil => simp [sortStrings]
  | cons s ss ih => simp [sortStrings, mem_insSorted, ih]

theorem length_insSorted (s : Str) : ∀ (l : List Str), (insSorted s l).length = l.length + 1 := by
  intro l
  induction l with
  | nil => rfl
  | cons t ts ih =>
    unfold insSorted
    by_cases h : strLtB t s = true
    · simp [h, ih]
    · simp [h]

theorem length_sortStrings : ∀ (l : List Str), (sortStrings l).length = l.length := by
  intro l
  induction l with
  | nil => rfl
  | cons s ss ih => simp [sortStrings, length_insSorted, ih]

theorem resultsLoop_mem (pfx : Str) (mk : Nat) :
    ∀ (ns acc : List Str) (r : Str), r ∈ (resultsLoop pfx mk acc ns).1 →
      r ∈ acc ∨ ∃ n, n ∈ ns ∧ r = pfx ++ n := by
  intro ns
  induction ns with
  | nil =>
    intro acc r h
    simp [resultsLoop] at h
    exact Or.inl h
  | cons n ns ih =>
    intro acc r h
    unfold resultsLoop at h
    by_cases hmk : mk ≤ acc.length
    · simp [hmk] at h
      exact Or.inl h
    · simp [hmk] at h
      rcases ih _ _ h with h2 | ⟨n2, hn2, he⟩
      · rcases mem_appendUniq h2 with h3 | h3
        · exact Or.inl h3
        · exact Or.inr ⟨n, by simp, h3⟩
      · exact Or.inr ⟨n2, by simp [hn2], he⟩

theorem resultsLoop_length (pfx : Str) (mk : Nat) :
    ∀ (ns acc : List Str), acc.length ≤ mk →
      (resultsLoop pfx mk acc ns).1.length ≤ mk ∧
      ((resultsLoop pfx mk acc ns).2 = true → (resultsLoop pfx mk acc ns).1.length = mk) := by
  intro ns
  induction ns with
  | nil =>
    intro acc hacc
    constructor
    · simpa [resultsLoop] using hacc
    · intro h
      simp [resultsLoop] at h
  | cons n ns ih =>
    intro acc hacc
    unfold resultsLoop
    by_cases hmk : mk ≤ acc.length
    · have heq : acc.length = mk := le_antisymm hacc hmk
      simp [hmk, heq]
    · have hlen : (appendUniq acc (pfx ++ n)).length ≤ mk := by
        have := length_appendUniq_le acc (pfx ++ n)
        omega
      simp only [hmk, if_false]
      exact ih _ hlen

theorem foldl_appendUniq_mem (f : Str → Str) :
    ∀ (l acc : List Str) (x : Str),
      x ∈ l.foldl (fun a s => appendUniq a (f s)) acc → x ∈ acc ∨ ∃ e, e ∈ l ∧ x = f e := by
  intro l
  induction l with
  | nil =>
    intro acc x h
    simp at h
    exact Or.inl h
  | cons s l ih =>
    intro acc x h
    simp only [List.foldl_cons] at h
    rcases ih _ _ h with h2 | ⟨e, he, hx⟩
    · rcases mem_appendUniq h2 with h3 | h3
      · exact Or.inl h3
      · exact Or.inr ⟨s, by simp, h3⟩
    · exact Or.inr ⟨e, by simp [he], hx⟩

theorem mem_uniqueObjects {l : List Str} {x : Str} (h : x ∈ uniqueObjects l) : x ∈ l := by
  unfold uniqueObjects at h
  rcases foldl_appendUniq_mem (fun s => s) l [] x h with h2 | ⟨e, he, hx⟩
  · simp at h2
  · subst hx
    exact he

theorem mem_prependPfxUniq {pfx : Str} {cps : List Str} {x : Str}
    (h : x ∈ prependPfxUniq pfx cps) : ∃ e, e ∈ cps ∧ x = pfx ++ e := by
  unfold prependPfxUniq at h
  rcases foldl_appendUniq_mem (fun cp => pfx ++ cp) cps [] x h with h2 | he
  · simp at h2
  · exact he

theorem isPfxOf_refl : ∀ (d : Str), isPfxOf d d = true := by
  intro d
  induction d with
  | nil => rfl
  | cons c cs ih => simp [isPfxOf, ih]

theorem goContains_of_suffix {d s : Str} (h : d <:+ s) : goContains s d = true := by
  obtain ⟨t, rfl⟩ := h
  induction t with
  | nil =>
    cases d with
    | nil => rfl
    | cons c cs => simp [goContains, isPfxOf_refl]
  | cons c ts ih => simp [goContains, ih]

theorem dirOf_suffix {d : Str} : ∀ {n : Str}, goContains n d = true → d <:+ dirOf d n := by
  intro n
  induction n with
  | nil =>
    intro h
    cases d with
    | nil => exact List.suffix_refl []
    | cons c cs => simp [goContains, isPfxOf] at h
  | cons c cs ih =>
    intro h
    by_cases hp : isPfxOf d (c :: cs) = true
    · have hdir : dirOf d (c :: cs) = d := by
        show (if isPfxOf d (c :: cs) = true then d else c :: dirOf d cs) = d
        exact if_pos hp
      rw [hdir]
    · have hdir : dirOf d (c :: cs) = c :: dirOf d cs := by
        show (if isPfxOf d (c :: cs) = true then d else c :: dirOf d cs) = c :: dirOf d cs
        exact if_neg hp
      have h2 : goContains cs d = true := by
        unfold goContains at h
        simp [hp] at h
        exact h
      obtain ⟨t, ht⟩ := ih h2
      rw [hdir]
      exact ⟨c :: t, by rw [List.cons_append, ht]⟩

theorem mem_afterMarker {sorted : List Str} {marker x : Str}
    (h : x ∈ afterMarker sorted marker) : x ∈ sorted := by
  unfold afterMarker at h
  by_cases hm : marker = []
  · simpa [hm] using h
  · simp [hm] at h
    exact h.1

theorem strLtB_of_mem_afterMarker {sorted : List Str} {marker x : Str} (hm : marker ≠ [])
    (h : x ∈ afterMarker sorted marker) : strLtB marker x = true := by
  unfold afterMarker at h
  simp [hm] at h
  exact h.2

theorem not_goContains_of_mem_actualObjects {dObjs : List Str} {delim x : Str}
    (hd : isWhitespaceOnly delim = false) (h : x ∈ actualObjectsOf dObjs delim) :
    goContains x delim = false := by
  unfold actualObjectsOf at h
  simp [hd, filterDelimited] at h
  exact h.2

theorem mem_actualPrefixes_dir {dObjs : List Str} {delim e : Str}
    (hd : isWhitespaceOnly delim = false) (h : e ∈ actualPrefixesOf dObjs delim) :
    ∃ n, goContains n delim = true ∧ e = dirOf delim n := by
  unfold actualPrefixesOf at h
  simp only [hd, Bool.false_eq_true, not_false_eq_true, if_true, if_pos rfl] at h
  have h2 := mem_uniqueObjects h
  simp [extractDir, filterNotDelimited] at h2
  obtain ⟨n, ⟨_, hc⟩, he⟩ := h2
  exact ⟨n, hc, he.symm⟩

theorem actualPrefixesOf_ws {dObjs : List Str} {delim : Str}
    (hd : isWhitespaceOnly delim = true) : actualPrefixesOf dObjs delim = [] := by
  unfold actualPrefixesOf
  simp [hd]

theorem ne_nil_of_not_ws {delim : Str} (hd : isWhitespaceOnly delim = false) : delim ≠ [] := by
  intro h
  subst h
  simp [isWhitespaceOnly] at hd

theorem listObjects_ok_inv {d : Donut} {bucket pfx marker delim : Str} {mkeys : Int}
    {keys cps : List Str} {trunc : Bool}
    (h : donut.ListObjects d bucket pfx marker delim mkeys = GoOutcome.ok (keys, cps, trunc)) :
    ∃ objs, lookupA d.buckets bucket = some objs ∧
      keys = sortStrings (listResultsPair objs pfx marker delim mkeys).1 ∧
      cps = sortStrings (prependPfxUniq pfx (actualPrefixesOf (donutObjectsOf objs pfx) delim)) ∧
      trunc = (listResultsPair objs pfx marker delim mkeys).2 := by
  unfold donut.ListObjects at h
  cases hl : lookupA d.buckets bucket with
  | none =>
    rw [hl] at h
    cases h
  | some objs =>
    rw [hl] at h
    injection h with h2
    unfold listObjects at h2
    rw [Prod.mk.injEq, Prod.mk.injEq] at h2
    exact ⟨objs, rfl, h2.1.symm, h2.2.1.symm, h2.2.2.symm⟩

/-! Claim theorems. -/

/-- C1 (code bug): the spec requires `SetBucketMetadata` on an absent bucket
to fail with `BucketNotFound` (as its sibling `GetBucketMetadata` does), but
the code has no bucket-existence check: on a store with initialized metadata
it assigns into the nil map `metadata[bucket]`, which is a Go runtime panic.
This theorem evaluates the embedded code at such an input. -/
theorem C1_setBucketMetadata_absent_bucket_panics :
    donut.SetBucketMetadata dC1 (str "b") [(aclKey, str "public-read")] = GoOutcome.panic := by
  decide

/-- C3: `ListBuckets` never returns an error: every store state yields an
`ok` mapping, and the never-initialized store (metadata read fails, the error
is swallowed) yields the empty mapping. -/
theorem C3_listBuckets_never_errors (d : Donut) :
    (∃ m, donut.ListBuckets d = GoOutcome.ok m) ∧
    (d.metadata = none → donut.ListBuckets d = GoOutcome.ok []) := by
  unfold donut.ListBuckets
  cases hm : d.metadata with
  | none => exact ⟨⟨[], rfl⟩, fun _ => rfl⟩
  | some m => exact ⟨⟨m, rfl⟩, fun hc => Option.noConfusion hc⟩

/-- Witness for C3 at the never-initialized store. -/
theorem C3_witness : donut.ListBuckets (Donut.mk [] none) = GoOutcome.ok [] :=
  (C3_listBuckets_never_errors (Donut.mk [] none)).2 rfl

/-- C10: `GetObject` with an empty or whitespace-only bucket or object name
returns `InvalidArgument`, for every store state (in particular without
consulting the bucket index). -/
theorem C10_getObject_invalidArgument (d : Donut) (bucket object : Str)
    (h : isWhitespaceOnly bucket = true ∨ isWhitespaceOnly object = true) :
    donut.GetObject d bucket object = GoOutcome.err DonutError.invalidArgument := by
  unfold donut.GetObject
  rcases h with h | h
  · simp [h]
  · by_cases hb : isWhitespaceOnly bucket = true
    · simp [hb]
    · simp [hb, h]

/-- Witness for C10: the empty bucket name is rejected even on a store whose
index carries an entry under that name. -/
theorem C10_witness :
    donut.GetObject (Donut.mk [(str "", [str "o"])] none) (str "") (str "o") =
      GoOutcome.err DonutError.invalidArgument :=
  C10_getObject_invalidArgument (Donut.mk [(str "", [str "o"])] none) (str "") (str "o")
    (Or.inl (by decide))

/-- C7: a complete-multipart request whose decoded part list is not sorted
ascending by part number is answered with `InvalidPartOrder` and the driver's
`CompleteMultipartUpload` is never invoked (so no object is created and the
upload stays Active). -/
theorem C7_complete_unsorted_responds_invalidPartOrder (req : CompleteMultipartRequest)
    (parts : List CompletedPart) (hv : req.validOp = true)
    (hb : req.decodedBody = some parts) (hs : isSortedByPartNumber parts = false) :
    completeMultipartUploadHandler req = ([ApiMessage.errInvalidPartOrder], false) := by
  unfold completeMultipartUploadHandler
  simp [hv, hb, hs]

/-- Witness for C7 at the `[2, 1]` part list. -/
theorem C7_witness :
    completeMultipartUploadHandler reqC7 = ([ApiMessage.errInvalidPartOrder], false) :=
  C7_complete_unsorted_responds_invalidPartOrder reqC7
    [CompletedPart.mk 2 (str "e2"), CompletedPart.mk 1 (str "e1")] rfl rfl (by decide)

/-- C9: in the upload-part handler, a `partNumber` query parameter that does
not parse as an integer produces an `InvalidPart` response but does not stop
the handler: the driver's `CreateObjectPart` is still called, with part
number 0 (Go's zero value), and a second response is written after it. -/
theorem C9_partNumber_parse_failure_still_calls_driver (req : PutPartRequest) (n : Int)
    (hv : req.validOp = true) (hm : req.md5Valid = true)
    (hc : goParseInt req.contentLength = some n)
    (hmax : isMaxObjectSize req.contentLength = false)
    (hp : goAtoi req.partNumberParam = none) :
    putObjectPartHandler req =
      ([ApiMessage.errInvalidPart, partDriverResponse req.driverResult], some 0) := by
  have hne : req.contentLength ≠ [] := by
    intro h0
    rw [h0] at hc
    simp [goParseInt, parseDigits] at hc
  have hp2 : goParseInt req.partNumberParam = none := hp
  unfold putObjectPartHandler
  simp [hv, hm, hne, hmax, hc, hp2, goAtoi]

/-- Witness for C9 at a request whose `partNumber` is `"abc"`. -/
theorem C9_witness :
    putObjectPartHandler reqC9 =
      ([ApiMessage.errInvalidPart, partDriverResponse reqC9.driverResult], some 0) :=
  C9_partNumber_parse_failure_still_calls_driver reqC9 5 rfl rfl (by decide) (by decide)
    (by decide)

/-- C8: `SetBucketMetadata` on an existing bucket (one with a stored metadata
map) mutates only the `"acl"` key: that key takes the input's `"acl"` value,
every other stored key keeps its prior value, every other bucket's metadata is
unchanged, the bucket index is untouched, and inputs agreeing on `"acl"`
produce identical outcomes (so every other input key is ignored). -/
theorem C8_setBucketMetadata_only_acl (d : Donut) (meta : List (Str × List (Str × Str)))
    (bucket : Str) (bm : List (Str × Str)) (old : List (Str × Str))
    (hm : d.metadata = some meta) (hb : lookupA meta bucket = some old) :
    donut.SetBucketMetadata d bucket bm =
      GoOutcome.ok (Donut.mk d.buckets
        (some (insertA meta bucket (insertA old aclKey (lookupD bm aclKey []))))) ∧
    lookupA (insertA old aclKey (lookupD bm aclKey [])) aclKey =
      some (lookupD bm aclKey []) ∧
    (∀ k, k ≠ aclKey → lookupA (insertA old aclKey (lookupD bm aclKey [])) k = lookupA old k) ∧
    (∀ b2, b2 ≠ bucket →
      lookupA (insertA meta bucket (insertA old aclKey (lookupD bm aclKey []))) b2 =
        lookupA meta b2) ∧
    (∀ bm2 : List (Str × Str), lookupA bm2 aclKey = lookupA bm aclKey →
      donut.SetBucketMetadata d bucket bm2 = donut.SetBucketMetadata d bucket bm) := by
  refine ⟨?_, ?_, ?_, ?_, ?_⟩
  · unfold donut.SetBucketMetadata
    rw [hm]
    simp [hb]
  · exact lookupA_insertA_self old aclKey _
  · intro k hk
    exact lookupA_insertA_ne old aclKey k _ hk
  · intro b2 hb2
    exact lookupA_insertA_ne meta bucket b2 _ hb2
  · intro bm2 hbm
    unfold donut.SetBucketMetadata
    rw [hm]
    simp [hb, lookupD, hbm]

/-- Witness for C8: the `"junk"` input key is dropped, the `"owner"` stored
key survives, only `"acl"` changes. -/
theorem C8_witness :
    donut.SetBucketMetadata dC8 (str "photos") bmC8 =
      GoOutcome.ok (Donut.mk dC8.buckets
        (some (insertA metaC8 (str "photos")
          (insertA oldC8 aclKey (lookupD bmC8 aclKey []))))) :=
  (C8_setBucketMetadata_only_acl dC8 metaC8 (str "photos") bmC8 oldC8 rfl (by decide)).1

/-- C6: `PutObject` is not idempotent on a key: once a `PutObject` of
`(bucket, object)` succeeds, a second `PutObject` of the same pair fails with
`ObjectExists`, whatever digest arguments the second call carries. -/
theorem C6_putObject_not_idempotent (d d2 : Donut) (bucket object e1 m1 e2 m2 md5 : Str)
    (h : donut.PutObject d bucket object e1 m1 = GoOutcome.ok (md5, d2)) :
    donut.PutObject d2 bucket object e2 m2 =
      GoOutcome.err (DonutError.objectExists object) := by
  unfold donut.PutObject bucketPutObject at h
  by_cases hb : isWhitespaceOnly bucket = true
  · simp [hb] at h
  · by_cases ho : isWhitespaceOnly object = true
    · simp [hb, ho] at h
    · cases hl : lookupA d.buckets bucket with
      | none =>
        rw [hl] at h
        simp [hb, ho] at h
      | some objs =>
        rw [hl] at h
        by_cases hmem : object ∈ objs
        · simp [hb, ho, hmem] at h
        · by_cases hdig : e1 ≠ [] ∧ e1 ≠ m1
          · simp [hb, ho, hmem, hdig] at h
          · simp [hb, ho, hmem, hdig] at h
            obtain ⟨hmd5, hd2⟩ := h
            unfold donut.PutObject
            have hlook : lookupA (Donut.mk (insertA d.buckets bucket (objs ++ [object]))
                d.metadata).buckets bucket = some (objs ++ [object]) :=
              lookupA_insertA_self d.buckets bucket (objs ++ [object])
            have hmem2 : object ∈ objs ++ [object] := by simp
            rw [← hd2]
            simp [hb, ho, hlook, hmem2]

/-- Witness for C6: put `"obj"` into the empty bucket `"x"`, then put it
again. -/
theorem C6_witness :
    donut.PutObject (Donut.mk [(str "x", [str "obj"])] none) (str "x") (str "obj")
      (str "") (str "m2") = GoOutcome.err (DonutError.objectExists (str "obj")) :=
  C6_putObject_not_idempotent dC6 (Donut.mk [(str "x", [str "obj"])] none)
    (str "x") (str "obj") (str "") (str "m") (str "") (str "m2") (str "m") (by decide)

/-- C2 counterexample: in a bucket holding the object `"ac"`, a listing with
prefix `"a"`, marker `"b"` and no delimiter returns the key `"ac"`, yet
`"ac" < "b"` in byte order — a returned key less than or equal to the marker,
refuting the claim as stated. -/
theorem C2_counterexample :
    donut.ListObjects dC2 (str "x") (str "a") (str "b") (str "") 1000 =
      GoOutcome.ok ([str "ac"], [], false) ∧
    strLtB (str "ac") (str "b") = true := by
  decide

/-- C2 (amended): with a non-empty marker, the marker filter is strict on the
prefix-stripped remainders: every returned key equals `prefix ++ n` for some
candidate `n` with `marker < n` in byte order.  (In particular, with an empty
prefix no returned key is less than or equal to the marker; with a non-empty
prefix the returned keys carry the prefix back and the comparison against the
full key can fail, as the counterexample shows.) -/
theorem C2_marker_strict_on_stripped_names (d : Donut) (bucket pfx marker delim : Str)
    (mkeys : Int) (keys cps : List Str) (trunc : Bool) (hm : marker ≠ [])
    (h : donut.ListObjects d bucket pfx marker delim mkeys = GoOutcome.ok (keys, cps, trunc)) :
    ∀ k, k ∈ keys → ∃ n, strLtB marker n = true ∧ k = pfx ++ n := by
  obtain ⟨objs, _, hkeys, _, _⟩ := listObjects_ok_inv h
  intro k hk
  rw [hkeys, mem_sortStrings] at hk
  unfold listResultsPair at hk
  rcases resultsLoop_mem pfx (maxKeysNorm mkeys) _ [] k hk with h0 | ⟨n, hn, he⟩
  · simp at h0
  · exact ⟨n, strLtB_of_mem_afterMarker hm hn, he⟩

/-- Witness for the amended C2: key `"k3"` returned above marker `"k2"`. -/
theorem C2_witness :
    ∃ n, strLtB (str "k2") n = true ∧ str "k3" = str "" ++ n :=
  C2_marker_strict_on_stripped_names dC2w (str "x") (str "") (str "k2") (str "") 1000
    [str "k3"] [] false (by decide) (by decide) (str "k3") (by decide)

/-- C4: for a listing with `maxKeys = K > 0`, at most `K` keys are returned,
and a truncated listing returns exactly `K` keys. -/
theorem C4_maxKeys_truncation (d : Donut) (bucket pfx marker delim : Str) (K : Int)
    (keys cps : List Str) (trunc : Bool) (hK : 0 < K)
    (h : donut.ListObjects d bucket pfx marker delim K = GoOutcome.ok (keys, cps, trunc)) :
    (keys.length : Int) ≤ K ∧ (trunc = true → (keys.length : Int) = K) := by
  obtain ⟨objs, _, hkeys, _, htr⟩ := listObjects_ok_inv h
  have hmk : maxKeysNorm K = K.toNat := by
    unfold maxKeysNorm
    rw [if_neg (by omega)]
  have hrl := resultsLoop_length pfx (maxKeysNorm K)
    (afterMarker (sortStrings (actualObjectsOf (donutObjectsOf objs pfx) delim)) marker) []
    (by simp)
  have hlen : keys.length = (listResultsPair objs pfx marker delim K).1.length := by
    rw [hkeys, length_sortStrings]
  constructor
  · have h1 := hrl.1
    rw [hlen]
    unfold listResultsPair
    omega
  · intro ht
    rw [htr] at ht
    have h2 := hrl.2 ht
    rw [hlen]
    unfold listResultsPair
    omega

/-- Witness for C4 at the pagination scenario: four keys, `maxKeys = 1`,
truncated listing of exactly one key. -/
theorem C4_witness :
    ((([str "k1"] : List Str).length : Int) ≤ 1) ∧
    ((([str "k1"] : List Str).length : Int) = 1) := by
  have h := C4_maxKeys_truncation dC4 (str "x") (str "") (str "") (str "") 1
    [str "k1"] [] true (by decide) (by decide)
  exact ⟨h.1, h.2 rfl⟩

/-- C5: for a successful listing with a non-empty delimiter, every returned
key starts with the query prefix, every returned common prefix ends with the
delimiter, and no string is both a returned key and a returned common
prefix. -/
theorem C5_prefix_delimiter_disjoint (d : Donut) (bucket pfx marker delim : Str)
    (mkeys : Int) (keys cps : List Str) (trunc : Bool) (_hdel : delim ≠ [])
    (h : donut.ListObjects d bucket pfx marker delim mkeys = GoOutcome.ok (keys, cps, trunc)) :
    (∀ k, k ∈ keys → pfx <+: k) ∧ (∀ cp, cp ∈ cps → delim <:+ cp) ∧
    (∀ x, x ∈ keys → x ∉ cps) := by
  obtain ⟨objs, _, hkeys, hcps, _⟩ := listObjects_ok_inv h
  refine ⟨?_, ?_, ?_⟩
  · intro k hk
    rw [hkeys, mem_sortStrings] at hk
    unfold listResultsPair at hk
    rcases resultsLoop_mem pfx (maxKeysNorm mkeys) _ [] k hk with h0 | ⟨n, _, he⟩
    · simp at h0
    · rw [he]
      exact List.prefix_append pfx n
  · intro cp hcp
    rw [hcps, mem_sortStrings] at hcp
    by_cases hws : isWhitespaceOnly delim = true
    · rw [actualPrefixesOf_ws hws] at hcp
      simp [prependPfxUniq] at hcp
    · have hws2 : isWhitespaceOnly delim = false := by
        revert hws
        cases isWhitespaceOnly delim <;> simp
      obtain ⟨e, he, hcpe⟩ := mem_prependPfxUniq hcp
      obtain ⟨n, hcn, hed⟩ := mem_actualPrefixes_dir hws2 he
      have hsuf : delim <:+ e := by
        rw [hed]
        exact dirOf_suffix hcn
      rw [hcpe]
      exact hsuf.trans (List.suffix_append pfx e)
  · intro x hx hxc
    rw [hkeys, mem_sortStrings] at hx
    rw [hcps, mem_sortStrings] at hxc
    by_cases hws : isWhitespaceOnly delim = true
    · rw [actualPrefixesOf_ws hws] at hxc
      simp [prependPfxUniq] at hxc
    · have hws2 : isWhitespaceOnly delim = false := by
        revert hws
        cases isWhitespaceOnly delim <;> simp
      unfold listResultsPair at hx
      rcases resultsLoop_mem pfx (maxKeysNorm mkeys) _ [] x hx with h0 | ⟨n, hn, he⟩
      · simp at h0
      · obtain ⟨e, heP, hxe⟩ := mem_prependPfxUniq hxc
        obtain ⟨n2, hcn2, hed⟩ := mem_actualPrefixes_dir hws2 heP
        have hne : n = e := by
          have hpe : pfx ++ n = pfx ++ e := by rw [← he, ← hxe]
          have hdr := congrArg (List.drop pfx.length) hpe
          simpa [List.drop_left] using hdr
        have hnm := mem_afterMarker hn
        rw [mem_sortStrings] at hnm
        have hnc := not_goContains_of_mem_actualObjects hws2 hnm
        have hsuf : delim <:+ e := by
          rw [hed]
          exact dirOf_suffix hcn2
        have hce := goContains_of_suffix hsuf
        rw [← hne] at hce
        rw [hnc] at hce
        simp at hce

/-- Witness for C5 at the spec's delimiter scenario (`a/1, a/2, b, c/d/e`
listed with delimiter `"/"`): key `"b"` starts with the empty prefix, common
prefix `"a/"` ends with `"/"`, and `"b"` is not among the common prefixes. -/
theorem C5_witness :
    (str "" <+: str "b") ∧ (str "/" <:+ str "a/") ∧
    (str "b" ∉ [str "a/", str "c/"]) := by
  have h := C5_prefix_delimiter_disjoint dC5 (str "x") (str "") (str "") (str "/") 1000
    [str "b"] [str "a/", str "c/"] false (by decide) (by decide)
  exact ⟨h.1 (str "b") (by decide), h.2.1 (str "a/") (by decide), h.2.2 (str "b") (by decide)⟩
